import Mathlib

/-!
# Verification of `validate_models.py`

A shallow embedding of the model-manifest validator (`src/validate_models.py`)
and proofs about its behaviour.

Modelling conventions:
* Parsed JSON documents are values of the inductive type `JValue`.  JSON numbers
  are modelled as integers (`Int`): every numeric value appearing in the claims
  is used only as an opaque non-string or as zero, so the distinction between
  ints and floats never matters here.
* Python dictionaries produced by `json.loads` have unique keys (the parser
  collapses duplicates), so objects are association lists and `get` takes the
  first match.
* Printing is modelled by a list of structured `Line` values, one per `print`
  call (several claims are about which lines appear and in which order, not
  about exact formatting).
* Python exceptions that the script does not catch (`TypeError` from `len`,
  from slicing, from `+`, or from hashing an unhashable dict key) are modelled
  with `Except PyErr`; a `.error` result means the run died with an uncaught
  exception, an `.ok` result is a normal return.  Output printed before an
  uncaught exception is not modelled (no claim depends on it).
* `json.loads` itself is standard-library code, not code of this repository;
  its outcome is an input (`ParseOutcome`) to the embedded pipeline.  The
  guarantee that the parser reports a 1-based line number within the file,
  `1 ≤ lineno ≤ number of lines`, is taken as a hypothesis where needed.
-/

/-- A parsed JSON value (the result of `json.loads`). -/
inductive JValue where
  | null : JValue
  | bool : Bool → JValue
  | num : Int → JValue
  | str : String → JValue
  | arr : List JValue → JValue
  | obj : List (String × JValue) → JValue

/-- Python truthiness (`if url:`) of a parsed JSON value. -/
def jTruthy : JValue → Bool
  | .null => false
  | .bool b => b
  | .num n => n != 0
  | .str s => s != ""
  | .arr xs => !xs.isEmpty
  | .obj kvs => !kvs.isEmpty

/-- `field in model` for a parsed JSON object. -/
def hasKey (kvs : List (String × JValue)) (k : String) : Bool :=
  kvs.any (fun p => p.1 == k)

/-- `model.get(k, d)` for a parsed JSON object. -/
def jGetD (kvs : List (String × JValue)) (k : String) (d : JValue) : JValue :=
  match kvs.find? (fun p => p.1 == k) with
  | some p => p.2
  | none => d

/-- `type(v).__name__` for a parsed JSON value. -/
def jTypeName : JValue → String
  | .null => "NoneType"
  | .bool _ => "bool"
  | .num _ => "int"
  | .str _ => "str"
  | .arr _ => "list"
  | .obj _ => "dict"

/-- Whether a value is a JSON object (a Python `dict`). -/
def isObj : JValue → Bool
  | .obj _ => true
  | _ => false

/-- Whether a value is a string. -/
def isStr : JValue → Bool
  | .str _ => true
  | _ => false

/-- Whether a value may be used as a Python `dict` key (lists and dicts are
unhashable; using one as a key raises `TypeError`). -/
def pyHashable : JValue → Bool
  | .arr _ => false
  | .obj _ => false
  | _ => true

/-- Python `==` on hashable scalar values, as used for dict-key lookup.
Note `True == 1` and `False == 0` in Python.  Unhashable values never reach a
key comparison (the insertion raises first), so the catch-all is irrelevant. -/
def pyKeyEq : JValue → JValue → Bool
  | .null, .null => true
  | .bool a, .bool b => a == b
  | .bool a, .num n => (if a then (1 : Int) else 0) == n
  | .num n, .bool b => n == (if b then (1 : Int) else 0)
  | .num a, .num b => a == b
  | .str a, .str b => a == b
  | _, _ => false

/-- An uncaught Python exception. -/
inductive PyErr where
  | typeError : String → PyErr

/-- A `defaultdict(list)` mapping values to lists of `(index, value)` pairs,
in key insertion order (Python dicts preserve insertion order). -/
abbrev Index := List (JValue × List (Nat × JValue))

/-- Append an entry to the list stored at `key`, creating the key at the end
if absent (Python `index[key].append(e)` on a `defaultdict(list)`). -/
def assocAppend (idx : Index) (key : JValue) (e : Nat × JValue) : Index :=
  match idx with
  | [] => [(key, [e])]
  | (k, l) :: rest =>
    if pyKeyEq k key then (k, l ++ [e]) :: rest
    else (k, l) :: assocAppend rest key e

/-- `index[key].append(e)`: raises `TypeError` on an unhashable key. -/
def indexAppend (idx : Index) (key : JValue) (e : Nat × JValue) :
    Except PyErr Index :=
  if pyHashable key then .ok (assocAppend idx key e)
  else .error (.typeError "unhashable type")

/-- Total number of `(index, value)` pairs stored in an index. -/
def idxSize (idx : Index) : Nat :=
  (idx.map (fun p => p.2.length)).sum

/-- One recorded validation issue (an element of the `issues` list). -/
inductive Issue where
  | notObject : Nat → JValue → Issue
  | missingField : Nat → String → JValue → Issue

/-- One printed line of the report, by `print` call.  Constructors carry the
data interpolated into the corresponding f-string. -/
inductive Line where
  | fileNotFound : String → Line
  | readErrorLine : String → Line
  | synErrHeader : Nat → Nat → Line
  | synErrMsg : String → Line
  | contextHeader : Line
  | contextLine : Bool → Nat → String → Line
  | synOk : Line
  | rootNotObject : String → Line
  | missingModels : Line
  | modelsNotArray : String → Line
  | totalModels : Nat → Line
  | fieldIssuesHeader : Nat → Line
  | issueLine : Issue → Line
  | dupUrlsHeader : Nat → Line
  | dupUrlKey : JValue → Line
  | dupUrlEntry : Nat → JValue → Line
  | dupNamesHeader : Nat → Line
  | dupNameKey : JValue → Line
  | dupNameEntry : Nat → JValue → Line
  | noIssues : Line
  | summary : Nat → Nat → Nat → Line

/-- The three required fields, in source order. -/
def requiredFields : List String := ["model_name", "url", "directory"]

/-- The issues recorded for the entry at position `i` (lines 77-84 of the
source): one `notObject` issue for a non-dict entry, one `missingField` issue
per absent required field for a dict entry. -/
def entryIssues (i : Nat) (m : JValue) : List Issue :=
  match m with
  | .obj kvs =>
    (requiredFields.filter (fun f => !hasKey kvs f)).map
      (fun f => .missingField i f (jGetD kvs "model_name" (.str "unknown")))
  | _ => [.notObject i m]

/-- The accumulating state of the entry loop: the `issues` list and the two
duplicate-detection indices. -/
structure LoopState where
  issues : List Issue
  urlIndex : Index
  nameIndex : Index

/-- One iteration of the entry loop (lines 76-93 of the source). -/
def processEntry (st : LoopState) (i : Nat) (m : JValue) :
    Except PyErr LoopState :=
  match m with
  | .obj kvs =>
    let issues2 := st.issues ++ entryIssues i (.obj kvs)
    let url := jGetD kvs "url" (.str "")
    let name := jGetD kvs "model_name" (.str "")
    match (if jTruthy url then indexAppend st.urlIndex url (i, name)
           else .ok st.urlIndex) with
    | .error e => .error e
    | .ok uIdx =>
      match (if jTruthy name then indexAppend st.nameIndex name (i, url)
             else .ok st.nameIndex) with
      | .error e => .error e
      | .ok nIdx => .ok ⟨issues2, uIdx, nIdx⟩
  | _ => .ok ⟨st.issues ++ [.notObject i m], st.urlIndex, st.nameIndex⟩

/-- The entry loop from position `i` onwards. -/
def processList (st : LoopState) (i : Nat) : List JValue → Except PyErr LoopState
  | [] => .ok st
  | m :: rest =>
    match processEntry st i m with
    | .error e => .error e
    | .ok st2 => processList st2 (i + 1) rest

/-- The full entry loop over `models` (`for i, model in enumerate(models)`). -/
def buildState (models : List JValue) : Except PyErr LoopState :=
  processList ⟨[], [], []⟩ 0 models

/-- Specification of the issues accumulated over a whole list starting at
position `i`: the concatenation of every entry's own issues, in order. -/
def allEntryIssues (i : Nat) : List JValue → List Issue
  | [] => []
  | m :: rest => entryIssues i m ++ allEntryIssues (i + 1) rest

/-- Keep the index keys mapped to more than one position (the duplicate
groups; dict-comprehension filter preserves insertion order). -/
def dupFilter (idx : Index) : Index :=
  idx.filter (fun p => decide (1 < p.2.length))

/-- Python `len(v)`: defined for strings (code points), lists and dicts;
raises `TypeError` otherwise (including for bools and numbers). -/
def pyLen : JValue → Except PyErr Nat
  | .str s => .ok s.length
  | .arr xs => .ok xs.length
  | .obj kvs => .ok kvs.length
  | _ => .error (.typeError "object has no len")

/-- Python `v[:n]`: slices strings (by code point) and lists; raises
`TypeError` otherwise. -/
def pySlice (v : JValue) (n : Nat) : Except PyErr JValue :=
  match v with
  | .str s => .ok (.str (s.take n))
  | .arr xs => .ok (.arr (xs.take n))
  | _ => .error (.typeError "value is not subscriptable")

/-- Python `v + suffix` with a string suffix: string concatenation; raises
`TypeError` for any non-string left operand (including lists). -/
def pyAddStr (v : JValue) (suffix : String) : Except PyErr JValue :=
  match v with
  | .str s => .ok (.str (s ++ suffix))
  | _ => .error (.typeError "can only concatenate str")

/-- Line 125 of the source:
`display_url = url if len(url) < 60 else url[:57] + "..."`. -/
def displayUrl (url : JValue) : Except PyErr JValue :=
  match pyLen url with
  | .error e => .error e
  | .ok n =>
    if n < 60 then .ok url
    else
      match pySlice url 57 with
      | .error e => .error e
      | .ok t => pyAddStr t "..."

/-- The lines printed for the entries of one duplicate-name group
(lines 123-126 of the source). -/
def dupNameEntryLines : List (Nat × JValue) → Except PyErr (List Line)
  | [] => .ok []
  | (i, u) :: rest =>
    match displayUrl u with
    | .error e => .error e
    | .ok d =>
      match dupNameEntryLines rest with
      | .error e => .error e
      | .ok r => .ok (.dupNameEntry i d :: r)

/-- The lines printed for all duplicate-name groups (lines 121-126). -/
def reportDupNamesGroups : Index → Except PyErr (List Line)
  | [] => .ok []
  | (n, es) :: rest =>
    match dupNameEntryLines es with
    | .error e => .error e
    | .ok ls =>
      match reportDupNamesGroups rest with
      | .error e => .error e
      | .ok r => .ok (.dupNameKey n :: (ls ++ r))

/-- The lines printed for all duplicate-URL groups (lines 113-116). -/
def dupUrlLines (dups : Index) : List Line :=
  dups.flatMap
    (fun p => .dupUrlKey p.1 :: p.2.map (fun q => .dupUrlEntry q.1 q.2))

/-- The duplicate-URL portion of a printed report (header, group keys and
group member lines). -/
def dupUrlReport (lines : List Line) : List Line :=
  lines.filter (fun l =>
    match l with
    | .dupUrlsHeader _ => true
    | .dupUrlKey _ => true
    | .dupUrlEntry _ _ => true
    | _ => false)

/-- Validation of a successfully parsed document: the structural checks, the
entry loop and the report (lines 51-137 of the source).  Returns the printed
lines and the boolean result, or the uncaught exception. -/
def validateDoc (data : JValue) : Except PyErr (List Line × Bool) :=
  match data with
  | .obj kvs =>
    if hasKey kvs "models" then
      match jGetD kvs "models" .null with
      | .arr models =>
        match buildState models with
        | .error e => .error e
        | .ok st =>
          let dupU := dupFilter st.urlIndex
          let dupN := dupFilter st.nameIndex
          match (if dupN.isEmpty then .ok [] else reportDupNamesGroups dupN) with
          | .error e => .error e
          | .ok nameLines =>
            let issueBlock :=
              if st.issues.isEmpty then []
              else Line.fieldIssuesHeader st.issues.length ::
                st.issues.map Line.issueLine
            let urlBlock :=
              if dupU.isEmpty then []
              else Line.dupUrlsHeader dupU.length :: dupUrlLines dupU
            let nameBlock :=
              if dupN.isEmpty then []
              else Line.dupNamesHeader dupN.length :: nameLines
            let ok := st.issues.isEmpty && dupU.isEmpty && dupN.isEmpty
            let tail :=
              if ok then [Line.noIssues]
              else [Line.summary st.issues.length dupU.length dupN.length]
            .ok ([Line.synOk, Line.totalModels models.length] ++
                  issueBlock ++ urlBlock ++ nameBlock ++ tail, ok)
      | m => .ok ([.synOk, .modelsNotArray (jTypeName m)], false)
    else .ok ([.synOk, .missingModels], false)
  | d => .ok ([.synOk, .rootNotObject (jTypeName d)], false)

/-- Helper for `pySplitLines`: split a character list at every newline. -/
def pySplitAux : List Char → List Char → List String
  | [], acc => [String.mk acc.reverse]
  | c :: cs, acc =>
    if c = '\n' then String.mk acc.reverse :: pySplitAux cs []
    else pySplitAux cs (c :: acc)

/-- Python `content.split('\n')` (line 40 of the source): splits at every
newline, keeping empty pieces, and yields `[""]` for empty contents.  Written
by structural recursion over the characters so proofs can evaluate it (the
library `String.splitOn` is well-founded-recursive and does not reduce). -/
def pySplitLines (s : String) : List String := pySplitAux s.data []

/-- The report printed on a JSON syntax error (lines 36-47 of the source).
`lineno`/`colno` are the parser's 1-based position.  The marker test
`i + 1 == lineno` is the source's `i == e.lineno - 1` moved across the
equation to avoid truncated subtraction; the two agree over the integers.
Likewise `lineno - 3` on `Nat` equals the source's `max(0, e.lineno - 3)`. -/
def synErrorReport (content : String) (lineno colno : Nat) (msg : String) :
    List Line :=
  let lines := pySplitLines content
  let start := lineno - 3
  let stop := min lines.length (lineno + 2)
  [Line.synErrHeader lineno colno, Line.synErrMsg msg, Line.contextHeader] ++
    (List.range' start (stop - start)).map
      (fun i => .contextLine (i + 1 == lineno) (i + 1) (lines.getD i ""))

/-- Oracle for `json.loads(content)`: either a syntax error with the parser's
1-based position and message, or the parsed value. -/
inductive ParseOutcome where
  | synError : Nat → Nat → String → ParseOutcome
  | parsed : JValue → ParseOutcome

/-- Oracle for the file system: the path does not exist, reading raised, or
reading produced contents (with their parse outcome). -/
inductive FileAccess where
  | notFound : FileAccess
  | readFail : String → FileAccess
  | content : String → ParseOutcome → FileAccess

/-- Validation of read file contents (lines 33-137 of the source). -/
def validateContent (content : String) (po : ParseOutcome) :
    Except PyErr (List Line × Bool) :=
  match po with
  | .synError l c m => .ok (synErrorReport content l c m, false)
  | .parsed v => validateDoc v

/-- `validate_models` (lines 16-137 of the source), with the file system and
the JSON parser supplied as oracles. -/
def validateModels (filePath : String) (fa : FileAccess) :
    Except PyErr (List Line × Bool) :=
  match fa with
  | .notFound => .ok ([.fileNotFound filePath], false)
  | .readFail m => .ok ([.readErrorLine m], false)
  | .content s po => validateContent s po

/-- `sys.exit(0 if success else 1)` in `main` (line 150 of the source). -/
def exitCode (success : Bool) : Nat :=
  if success then 0 else 1

/-! ## Derived notions used to state the claims -/

/-- An entry object with exactly the three required fields. -/
def mkEntry (n u d : JValue) : JValue :=
  .obj [("model_name", n), ("url", u), ("directory", d)]

/-- A root document holding only the `models` list. -/
def mkDoc (ms : List JValue) : JValue := .obj [("models", .arr ms)]

/-- The value the loop binds to `url` for an entry (`model.get('url', '')`);
arbitrary for non-objects, which never reach that line. -/
def urlOf (m : JValue) : JValue :=
  match m with
  | .obj kvs => jGetD kvs "url" (.str "")
  | _ => .str ""

/-- The value the loop binds to `name` for an entry
(`model.get('model_name', '')`). -/
def nameOf (m : JValue) : JValue :=
  match m with
  | .obj kvs => jGetD kvs "model_name" (.str "")
  | _ => .str ""

/-- A well-formed entry in the sense of claim C4: an object carrying all three
required fields, whose `url` and `model_name` are non-empty strings. -/
def wfEntry (m : JValue) : Prop :=
  match m with
  | .obj kvs =>
    hasKey kvs "model_name" = true ∧ hasKey kvs "url" = true ∧
    hasKey kvs "directory" = true ∧
    (∃ u, jGetD kvs "url" (.str "") = .str u ∧ u ≠ "") ∧
    (∃ n, jGetD kvs "model_name" (.str "") = .str n ∧ n ≠ "")
  | _ => False

/-- The precondition of claim C9, strengthened to both tracked fields: every
present `url` and `model_name` value of an entry object is a string (absent
fields default to the string `''`). -/
def strFieldsEntry (m : JValue) : Prop :=
  match m with
  | .obj kvs =>
    isStr (jGetD kvs "url" (.str "")) = true ∧
    isStr (jGetD kvs "model_name" (.str "")) = true
  | _ => True

/-- The url-index produced by a run over pairwise-distinct urls: one singleton
group per entry, in order. -/
def idxOfUrls (i : Nat) : List JValue → Index
  | [] => []
  | m :: rest => (urlOf m, [(i, nameOf m)]) :: idxOfUrls (i + 1) rest

/-- The name-index produced by a run over pairwise-distinct names: one
singleton group per entry, in order. -/
def idxOfNames (i : Nat) : List JValue → Index
  | [] => []
  | m :: rest => (nameOf m, [(i, urlOf m)]) :: idxOfNames (i + 1) rest

/-- Invariant: every key and every stored value of both indices is a string. -/
def allStrState (st : LoopState) : Prop :=
  (∀ g ∈ st.urlIndex, isStr g.1 = true ∧ ∀ p ∈ g.2, isStr p.2 = true) ∧
  (∀ g ∈ st.nameIndex, isStr g.1 = true ∧ ∀ p ∈ g.2, isStr p.2 = true)

/-- Whether a run returned normally (no uncaught exception). -/
def isOkRun (r : Except PyErr (List Line × Bool)) : Bool :=
  match r with
  | .ok _ => true
  | .error _ => false

/-- Number of context lines printed for 1-based line numbers below `ln`. -/
def ctxBefore (ls : List Line) (ln : Nat) : Nat :=
  (ls.filter (fun l =>
    match l with
    | .contextLine _ k _ => decide (k < ln)
    | _ => false)).length

/-- Number of context lines printed for 1-based line numbers above `ln`. -/
def ctxAfter (ls : List Line) (ln : Nat) : Nat :=
  (ls.filter (fun l =>
    match l with
    | .contextLine _ k _ => decide (ln < k)
    | _ => false)).length

/-- Number of context lines carrying the offending-line marker. -/
def ctxMarkedCount (ls : List Line) : Nat :=
  (ls.filter (fun l =>
    match l with
    | .contextLine mk _ _ => mk
    | _ => false)).length

/-- Lines that only the structural phase (everything after a successful parse)
can print. -/
def isStructuralLine : Line → Bool
  | .synOk => true
  | .rootNotObject _ => true
  | .missingModels => true
  | .modelsNotArray _ => true
  | .totalModels _ => true
  | .fieldIssuesHeader _ => true
  | .issueLine _ => true
  | .dupUrlsHeader _ => true
  | .dupUrlKey _ => true
  | .dupUrlEntry _ _ => true
  | .dupNamesHeader _ => true
  | .dupNameKey _ => true
  | .dupNameEntry _ _ => true
  | .noIssues => true
  | .summary _ _ _ => true
  | _ => false

/-- A concrete URL of exactly 60 characters. -/
def u60 : String :=
  "012345678901234567890123456789012345678901234567890123456789"

/-- Concrete invalid-JSON contents with five lines; `json.loads` rejects them
at line 3, column 1 with message `Expecting value`. -/
def c2Content : String := "[\n1,\n;\n2,\n3]"

/-! ## General lemmas about the embedded operations -/

theorem jTruthy_str (s : String) : jTruthy (.str s) = true ↔ s ≠ "" := by
  simp [jTruthy]

theorem pyKeyEq_str (a b : String) : pyKeyEq (.str a) (.str b) = true ↔ a = b := by
  simp [pyKeyEq]

theorem assocAppend_size (idx : Index) (k : JValue) (e : Nat × JValue) :
    idxSize (assocAppend idx k e) = idxSize idx + 1 := by
  induction idx with
  | nil => simp [assocAppend, idxSize]
  | cons hd tl ih =>
    obtain ⟨k0, l⟩ := hd
    by_cases hk : pyKeyEq k0 k = true
    · simp [assocAppend, hk, idxSize]
      omega
    · simp only [assocAppend, hk, if_false, Bool.false_eq_true]
      simp only [idxSize, List.map_cons, List.sum_cons] at ih ⊢
      omega

theorem indexAppend_size {idx idx' : Index} {k : JValue} {e : Nat × JValue}
    (h : indexAppend idx k e = .ok idx') :
    idxSize idx' = idxSize idx + 1 := by
  unfold indexAppend at h
  split at h
  · cases h
    exact assocAppend_size idx k e
  · cases h

/-- Inversion of a successful loop iteration on an entry object: the issues
list grows by exactly that entry's issues, and each index gains one stored
pair exactly when the corresponding tracked value is truthy. -/
theorem processEntry_obj_ok {st st' : LoopState} {i : Nat}
    {kvs : List (String × JValue)}
    (h : processEntry st i (.obj kvs) = .ok st') :
    st'.issues = st.issues ++ entryIssues i (.obj kvs) ∧
    idxSize st'.urlIndex = idxSize st.urlIndex +
      (if jTruthy (jGetD kvs "url" (.str "")) then 1 else 0) ∧
    idxSize st'.nameIndex = idxSize st.nameIndex +
      (if jTruthy (jGetD kvs "model_name" (.str "")) then 1 else 0) := by
  simp only [processEntry] at h
  by_cases hu : jTruthy (jGetD kvs "url" (.str "")) = true <;>
    by_cases hn : jTruthy (jGetD kvs "model_name" (.str "")) = true <;>
      simp only [hu, hn, if_true, if_false, Bool.false_eq_true] at h ⊢
  · cases h1 : indexAppend st.urlIndex (jGetD kvs "url" (.str ""))
        (i, jGetD kvs "model_name" (.str "")) with
    | error e => rw [h1] at h; cases h
    | ok uIdx =>
      rw [h1] at h
      cases h2 : indexAppend st.nameIndex (jGetD kvs "model_name" (.str ""))
          (i, jGetD kvs "url" (.str "")) with
      | error e => rw [h2] at h; cases h
      | ok nIdx =>
        rw [h2] at h
        cases h
        exact ⟨rfl, indexAppend_size h1, indexAppend_size h2⟩
  · cases h1 : indexAppend st.urlIndex (jGetD kvs "url" (.str ""))
        (i, jGetD kvs "model_name" (.str "")) with
    | error e => rw [h1] at h; cases h
    | ok uIdx =>
      rw [h1] at h
      cases h
      exact ⟨rfl, indexAppend_size h1, rfl⟩
  · cases h2 : indexAppend st.nameIndex (jGetD kvs "model_name" (.str ""))
        (i, jGetD kvs "url" (.str "")) with
    | error e => rw [h2] at h; cases h
    | ok nIdx =>
      rw [h2] at h
      cases h
      exact ⟨rfl, rfl, indexAppend_size h2⟩
  · cases h
    exact ⟨rfl, rfl, rfl⟩

/-- The display form of a string URL: shown in full when its length is
strictly below 60, otherwise its first 57 characters plus `"..."`. -/
theorem displayUrl_str_eq (s : String) :
    displayUrl (.str s) =
      .ok (.str (if s.length < 60 then s else s.take 57 ++ "...")) := by
  simp only [displayUrl, pyLen, pySlice, pyAddStr]
  split <;> simp [*]

/-! ## Claims C3, C7, C8, C10 -/

/-- C3 (counterexample): an entry whose `url` is present and is not the empty
string (it is the number `0`) is nevertheless not appended to the url-index:
after processing it the url-index is still empty, refuting the claimed
"if and only if the field's value is present and is not the empty string". -/
theorem C3_counterexample :
    hasKey [("model_name", JValue.str "a"), ("url", JValue.num 0),
      ("directory", JValue.str "d")] "url" = true ∧
    jGetD [("model_name", JValue.str "a"), ("url", JValue.num 0),
      ("directory", JValue.str "d")] "url" (.str "") = .num 0 ∧
    JValue.num 0 ≠ .str "" ∧
    buildState [.obj [("model_name", JValue.str "a"), ("url", JValue.num 0),
      ("directory", JValue.str "d")]] =
      .ok ⟨[], [], [(.str "a", [(0, .num 0)])]⟩ :=
  ⟨rfl, rfl, fun h => JValue.noConfusion h, rfl⟩

/-- C3 (amended): an entry object's `url` is appended to the url-index, and
its `model_name` to the name-index, exactly when the tracked value is truthy
in Python's sense; for string values truthiness is exactly non-emptiness, so
non-empty falsy-looking strings (e.g. whitespace) are indexed, but present
falsy non-string values (`0`, `false`, `null`, `[]`, `{}`) are excluded
alongside the empty string. -/
theorem C3_amended_truthy_indexing (kvs : List (String × JValue)) (i : Nat)
    (st st' : LoopState) (h : processEntry st i (.obj kvs) = .ok st') :
    idxSize st'.urlIndex = idxSize st.urlIndex +
      (if jTruthy (jGetD kvs "url" (.str "")) then 1 else 0) ∧
    idxSize st'.nameIndex = idxSize st.nameIndex +
      (if jTruthy (jGetD kvs "model_name" (.str "")) then 1 else 0) ∧
    (∀ s : String, jTruthy (.str s) = true ↔ s ≠ "") :=
  ⟨(processEntry_obj_ok h).2.1, (processEntry_obj_ok h).2.2,
    fun s => jTruthy_str s⟩

/-- C3 (witness): a whitespace-only `url` and a whitespace-only `model_name`
are both indexed (each index grows by one pair). -/
theorem C3_witness :
    idxSize [(JValue.str " ", [(0, JValue.str "n")])] = idxSize [] +
      (if jTruthy (jGetD [("model_name", JValue.str "n"),
        ("url", JValue.str " "), ("directory", JValue.str "d")] "url"
        (.str "")) then 1 else 0) ∧
    jTruthy (.str " ") = true := by
  have h := C3_amended_truthy_indexing
    [("model_name", JValue.str "n"), ("url", JValue.str " "),
      ("directory", JValue.str "d")] 0 ⟨[], [], []⟩
    ⟨[], [(.str " ", [(0, .str "n")])], [(.str "n", [(0, .str " ")])]⟩ rfl
  exact ⟨h.1, (h.2.2 " ").mpr (by decide)⟩

/-- C7 (confirmed): a non-object element of the models list yields exactly the
single `notObject` issue citing its position and raw value, and contributes
nothing to either index. -/
theorem C7_non_object_entry (st : LoopState) (i : Nat) (m : JValue)
    (h : isObj m = false) :
    processEntry st i m =
      .ok ⟨st.issues ++ [.notObject i m], st.urlIndex, st.nameIndex⟩ := by
  cases m <;> first
    | rfl
    | simp [isObj] at h

/-- C7 (witness): processing the string entry `"bad"` at position 0. -/
theorem C7_witness :
    processEntry ⟨[], [], []⟩ 0 (.str "bad") =
      .ok ⟨[.notObject 0 (.str "bad")], [], []⟩ := by
  simpa using C7_non_object_entry ⟨[], [], []⟩ 0 (.str "bad") rfl

/-- C8 (confirmed): the validator is a pure function of the file path and the
file/parse oracle — two runs on the same inputs produce the same printed lines,
the same boolean result and the same exit code.  The source has no source of
nondeterminism once the file contents are fixed (Python dicts iterate in
insertion order), which the embedding reflects by being a function. -/
theorem C8_deterministic (p1 p2 : String) (fa1 fa2 : FileAccess)
    (hp : p1 = p2) (hf : fa1 = fa2) :
    validateModels p1 fa1 = validateModels p2 fa2 ∧
    Except.map (fun r => exitCode r.2) (validateModels p1 fa1) =
      Except.map (fun r => exitCode r.2) (validateModels p2 fa2) := by
  subst hp
  subst hf
  exact ⟨rfl, rfl⟩

/-- C8 (witness): two runs on the default path with a missing file. -/
theorem C8_witness :
    validateModels "supported_models.txt" .notFound =
      validateModels "supported_models.txt" .notFound ∧
    Except.map (fun r => exitCode r.2)
        (validateModels "supported_models.txt" .notFound) =
      Except.map (fun r => exitCode r.2)
        (validateModels "supported_models.txt" .notFound) :=
  C8_deterministic "supported_models.txt" "supported_models.txt"
    .notFound .notFound rfl rfl

/-- C10 (confirmed): required-field checking tests key presence only.  An
entry object carrying the keys `model_name`, `url` and `directory` produces no
field issue, whatever the three values are (null, numeric and boolean values
count as present), and a successful loop iteration on it leaves the issues
list unchanged. -/
theorem C10_presence_only (kvs : List (String × JValue)) (i : Nat)
    (h1 : hasKey kvs "model_name" = true) (h2 : hasKey kvs "url" = true)
    (h3 : hasKey kvs "directory" = true) :
    entryIssues i (.obj kvs) = [] ∧
    ∀ st st', processEntry st i (.obj kvs) = .ok st' →
      st'.issues = st.issues := by
  have hiss : entryIssues i (.obj kvs) = [] := by
    simp [entryIssues, requiredFields, h1, h2, h3]
  refine ⟨hiss, fun st st' h => ?_⟩
  have := (processEntry_obj_ok h).1
  rw [hiss] at this
  simpa using this

/-- C10 (witness): an entry with null, numeric and boolean field values
produces no field issue. -/
theorem C10_witness :
    entryIssues 0 (.obj [("model_name", JValue.null), ("url", JValue.num 7),
      ("directory", JValue.bool false)]) = [] ∧
    LoopState.issues ⟨[], [(.num 7, [(0, .null)])], []⟩ =
      LoopState.issues ⟨[], [], []⟩ := by
  have h := C10_presence_only
    [("model_name", JValue.null), ("url", JValue.num 7),
      ("directory", JValue.bool false)] 0 rfl rfl rfl
  exact ⟨h.1, h.2 ⟨[], [], []⟩ ⟨[], [(.num 7, [(0, .null)])], []⟩ rfl⟩

/-! ## Claim C1 -/

set_option maxRecDepth 8000

/-- C1 (counterexample): a duplicate-name group whose URL has length exactly
60 — so its length does not exceed 60 — is printed truncated to 57 characters
plus `"..."`, not in full: the source truncates from length 60 on
(`len(url) < 60`), while the claim asserts full display up to length 60. -/
theorem C1_counterexample :
    u60.length = 60 ∧
    validateDoc (mkDoc [mkEntry (.str "a") (.str u60) (.str "d"),
      mkEntry (.str "a") (.str "u2") (.str "d")]) =
      .ok ([.synOk, .totalModels 2, .dupNamesHeader 1, .dupNameKey (.str "a"),
        .dupNameEntry 0 (.str (u60.take 57 ++ "...")),
        .dupNameEntry 1 (.str "u2"),
        .summary 0 0 1], false) ∧
    u60.take 57 ++ "..." ≠ u60 :=
  ⟨by decide, rfl, by decide⟩

/-- C1 (amended): in the duplicate-name report each associated URL is shown in
full when its length is strictly less than 60 characters and as its first 57
characters followed by `"..."` when its length is 60 or more; shown here for
every pair of string URLs on the printed report of a two-entry duplicate-name
group. -/
theorem C1_amended_truncation (n du1 du2 : String) (hn : n ≠ "")
    (hne : du1 ≠ du2) :
    validateDoc (mkDoc [mkEntry (.str n) (.str du1) (.str "d"),
      mkEntry (.str n) (.str du2) (.str "d")]) =
      .ok ([.synOk, .totalModels 2, .dupNamesHeader 1, .dupNameKey (.str n),
        .dupNameEntry 0
          (.str (if du1.length < 60 then du1 else du1.take 57 ++ "...")),
        .dupNameEntry 1
          (.str (if du2.length < 60 then du2 else du2.take 57 ++ "...")),
        .summary 0 0 1], false) := by
  have hn' : (n == "") = false := by simp [hn]
  have hne' : (du1 == du2) = false := by simp [hne]
  by_cases h1 : du1 = ""
  · have h2 : du2 ≠ "" := fun h => hne (h1.trans h.symm)
    have h2' : (du2 == "") = false := by simp [h2]
    subst h1
    simp [validateDoc, mkDoc, mkEntry, buildState, processList, processEntry,
      entryIssues, requiredFields, hasKey, jGetD, jTruthy, indexAppend,
      assocAppend, pyHashable, pyKeyEq, dupFilter, reportDupNamesGroups,
      dupNameEntryLines, displayUrl_str_eq, hn, hn', h2, h2']
  · have h1' : (du1 == "") = false := by simp [h1]
    by_cases h2 : du2 = ""
    · subst h2
      simp [validateDoc, mkDoc, mkEntry, buildState, processList, processEntry,
        entryIssues, requiredFields, hasKey, jGetD, jTruthy, indexAppend,
        assocAppend, pyHashable, pyKeyEq, dupFilter, reportDupNamesGroups,
        dupNameEntryLines, displayUrl_str_eq, hn, hn', h1, h1']
    · have h2' : (du2 == "") = false := by simp [h2]
      simp [validateDoc, mkDoc, mkEntry, buildState, processList, processEntry,
        entryIssues, requiredFields, hasKey, jGetD, jTruthy, indexAppend,
        assocAppend, pyHashable, pyKeyEq, dupFilter, reportDupNamesGroups,
        dupNameEntryLines, displayUrl_str_eq, hn, hn', h1, h1', h2, h2', hne,
        hne']

/-- C1 (witness): the amended statement at concrete inputs. -/
theorem C1_witness :
    validateDoc (mkDoc [mkEntry (.str "a") (.str "u1") (.str "d"),
      mkEntry (.str "a") (.str "u2") (.str "d")]) =
      .ok ([.synOk, .totalModels 2, .dupNamesHeader 1, .dupNameKey (.str "a"),
        .dupNameEntry 0
          (.str (if "u1".length < 60 then "u1" else "u1".take 57 ++ "...")),
        .dupNameEntry 1
          (.str (if "u2".length < 60 then "u2" else "u2".take 57 ++ "...")),
        .summary 0 0 1], false) :=
  C1_amended_truncation "a" "u1" "u2" (by decide) (by decide)

/-! ## Claim C5 -/

/-- C5 (counterexample): a manifest of exactly two entries sharing the `url`
value `""` produces zero duplicate-URL groups (the empty string is falsy and
never indexed), refuting the claim that every such manifest yields exactly one
group. -/
theorem C5_counterexample :
    urlOf (mkEntry (.str "a") (.str "") (.str "d")) =
      urlOf (mkEntry (.str "b") (.str "") (.str "d")) ∧
    validateDoc (mkDoc [mkEntry (.str "a") (.str "") (.str "d"),
      mkEntry (.str "b") (.str "") (.str "d")]) =
      .ok ([.synOk, .totalModels 2, .noIssues], true) ∧
    dupUrlReport [Line.synOk, .totalModels 2, .noIssues] = [] :=
  ⟨rfl, rfl, rfl⟩

/-- C5 (amended): for every manifest of exactly two entries sharing the same
non-empty string `url`, the report contains exactly one duplicate-URL group —
header of count 1, the shared URL, and both positions 0 and 1 — whatever the
two entries' `model_name` strings are, and the run returns failure. -/
theorem C5_amended_one_dup_url_group (u n1 n2 : String) (hu : u ≠ "") :
    ∃ lines, validateDoc (mkDoc [mkEntry (.str n1) (.str u) (.str "d1"),
      mkEntry (.str n2) (.str u) (.str "d2")]) = .ok (lines, false) ∧
      dupUrlReport lines = [.dupUrlsHeader 1, .dupUrlKey (.str u),
        .dupUrlEntry 0 (.str n1), .dupUrlEntry 1 (.str n2)] := by
  have hu' : (u == "") = false := by simp [hu]
  by_cases h1 : n1 = ""
  · by_cases h2 : n2 = ""
    · subst h1
      subst h2
      refine ⟨[Line.synOk, .totalModels 2, .dupUrlsHeader 1,
        .dupUrlKey (.str u), .dupUrlEntry 0 (.str ""),
        .dupUrlEntry 1 (.str ""), .summary 0 1 0], ?_, rfl⟩
      simp [validateDoc, mkDoc, mkEntry, buildState, processList, processEntry,
        entryIssues, requiredFields, hasKey, jGetD, jTruthy, indexAppend,
        assocAppend, pyHashable, pyKeyEq, dupFilter, dupUrlLines, hu, hu']
    · subst h1
      have h2' : (n2 == "") = false := by simp [h2]
      refine ⟨[Line.synOk, .totalModels 2, .dupUrlsHeader 1,
        .dupUrlKey (.str u), .dupUrlEntry 0 (.str ""),
        .dupUrlEntry 1 (.str n2), .summary 0 1 0], ?_, rfl⟩
      simp [validateDoc, mkDoc, mkEntry, buildState, processList, processEntry,
        entryIssues, requiredFields, hasKey, jGetD, jTruthy, indexAppend,
        assocAppend, pyHashable, pyKeyEq, dupFilter, dupUrlLines, hu, hu',
        h2, h2']
  · have h1' : (n1 == "") = false := by simp [h1]
    by_cases h2 : n2 = ""
    · subst h2
      refine ⟨[Line.synOk, .totalModels 2, .dupUrlsHeader 1,
        .dupUrlKey (.str u), .dupUrlEntry 0 (.str n1),
        .dupUrlEntry 1 (.str ""), .summary 0 1 0], ?_, rfl⟩
      simp [validateDoc, mkDoc, mkEntry, buildState, processList, processEntry,
        entryIssues, requiredFields, hasKey, jGetD, jTruthy, indexAppend,
        assocAppend, pyHashable, pyKeyEq, dupFilter, dupUrlLines, hu, hu',
        h1, h1']
    · have h2' : (n2 == "") = false := by simp [h2]
      by_cases h12 : n1 = n2
      · subst h12
        refine ⟨[Line.synOk, .totalModels 2, .dupUrlsHeader 1,
          .dupUrlKey (.str u), .dupUrlEntry 0 (.str n1),
          .dupUrlEntry 1 (.str n1), .dupNamesHeader 1, .dupNameKey (.str n1),
          .dupNameEntry 0
            (.str (if u.length < 60 then u else u.take 57 ++ "...")),
          .dupNameEntry 1
            (.str (if u.length < 60 then u else u.take 57 ++ "...")),
          .summary 0 1 1], ?_, rfl⟩
        simp [validateDoc, mkDoc, mkEntry, buildState, processList,
          processEntry, entryIssues, requiredFields, hasKey, jGetD, jTruthy,
          indexAppend, assocAppend, pyHashable, pyKeyEq, dupFilter,
          dupUrlLines, reportDupNamesGroups, dupNameEntryLines,
          displayUrl_str_eq, hu, hu', h1, h1']
      · have h12' : (n1 == n2) = false := by simp [h12]
        refine ⟨[Line.synOk, .totalModels 2, .dupUrlsHeader 1,
          .dupUrlKey (.str u), .dupUrlEntry 0 (.str n1),
          .dupUrlEntry 1 (.str n2), .summary 0 1 0], ?_, rfl⟩
        simp [validateDoc, mkDoc, mkEntry, buildState, processList,
          processEntry, entryIssues, requiredFields, hasKey, jGetD, jTruthy,
          indexAppend, assocAppend, pyHashable, pyKeyEq, dupFilter,
          dupUrlLines, hu, hu', h1, h1', h2, h2', h12, h12']

/-- C5 (witness): the amended statement at concrete inputs. -/
theorem C5_witness :
    ∃ lines, validateDoc (mkDoc [mkEntry (.str "a") (.str "u") (.str "d1"),
      mkEntry (.str "b") (.str "u") (.str "d2")]) = .ok (lines, false) ∧
      dupUrlReport lines = [.dupUrlsHeader 1, .dupUrlKey (.str "u"),
        .dupUrlEntry 0 (.str "a"), .dupUrlEntry 1 (.str "b")] :=
  C5_amended_one_dup_url_group "u" "a" "b" (by decide)

/-! ## Claim C2 -/

/-- The context portion of the syntax-error report, as a function of the split
lines and the parser's line number. -/
def ctxLines (L : List String) (lineno : Nat) : List Line :=
  (List.range' (lineno - 3) (min L.length (lineno + 2) - (lineno - 3))).map
    (fun i => Line.contextLine (i + 1 == lineno) (i + 1) (L.getD i ""))

theorem synErrorReport_eq (content msg : String) (lineno colno : Nat) :
    synErrorReport content lineno colno msg =
      [Line.synErrHeader lineno colno, Line.synErrMsg msg,
        Line.contextHeader] ++ ctxLines (pySplitLines content) lineno := rfl

/-- The printed index range splits into the indices before the offending line,
the offending index itself, and the indices after it. -/
theorem ctxSplit (L : List String) (lineno : Nat) (h1 : 1 ≤ lineno)
    (h2 : lineno ≤ L.length) :
    List.range' (lineno - 3) (min L.length (lineno + 2) - (lineno - 3)) =
      List.range' (lineno - 3) ((lineno - 1) - (lineno - 3)) ++
      (lineno - 1) ::
      List.range' lineno (min L.length (lineno + 2) - lineno) := by
  have e1 : min L.length (lineno + 2) - (lineno - 3) =
      ((min L.length (lineno + 2) - lineno) + 1) +
        ((lineno - 1) - (lineno - 3)) := by omega
  have e2 : (lineno - 3) + 1 * ((lineno - 1) - (lineno - 3)) = lineno - 1 := by
    omega
  have e3 : lineno - 1 + 1 = lineno := by omega
  rw [e1, ← List.range'_append, e2, List.range'_succ, e3]

theorem ctxLines_split (L : List String) (lineno : Nat) (h1 : 1 ≤ lineno)
    (h2 : lineno ≤ L.length) :
    ctxLines L lineno =
      (List.range' (lineno - 3) ((lineno - 1) - (lineno - 3))).map
        (fun i => Line.contextLine (i + 1 == lineno) (i + 1) (L.getD i "")) ++
      Line.contextLine (lineno - 1 + 1 == lineno) (lineno - 1 + 1)
        (L.getD (lineno - 1) "") ::
      (List.range' lineno (min L.length (lineno + 2) - lineno)).map
        (fun i => Line.contextLine (i + 1 == lineno) (i + 1) (L.getD i "")) := by
  unfold ctxLines
  rw [ctxSplit L lineno h1 h2, List.map_append, List.map_cons]

theorem ctxLines_before (L : List String) (lineno : Nat) (h1 : 1 ≤ lineno)
    (h2 : lineno ≤ L.length) :
    ctxBefore (ctxLines L lineno) lineno = min 2 (lineno - 1) := by
  unfold ctxBefore
  rw [ctxLines_split L lineno h1 h2, List.filter_append, List.filter_cons]
  have hmid : (lineno - 1 + 1 < lineno) = False := by
    simp only [eq_iff_iff, iff_false]
    omega
  have hseg1 : ∀ x ∈ (List.range' (lineno - 3) ((lineno - 1) - (lineno - 3))).map
      (fun i => Line.contextLine (i + 1 == lineno) (i + 1) (L.getD i "")),
      (fun l => match l with
        | Line.contextLine _ k _ => decide (k < lineno)
        | _ => false) x = true := by
    intro x hx
    obtain ⟨i, hi, rfl⟩ := List.mem_map.mp hx
    have hb := List.mem_range'_1.mp hi
    simp only [decide_eq_true_eq]
    omega
  have hseg3 : (List.map
      (fun i => Line.contextLine (i + 1 == lineno) (i + 1) (L.getD i ""))
      (List.range' lineno (min L.length (lineno + 2) - lineno))).filter
      (fun l => match l with
        | Line.contextLine _ k _ => decide (k < lineno)
        | _ => false) = [] := by
    rw [List.filter_eq_nil_iff]
    intro x hx
    obtain ⟨i, hi, rfl⟩ := List.mem_map.mp hx
    have hb := List.mem_range'_1.mp hi
    simp only [decide_eq_true_eq, not_lt]
    omega
  rw [List.filter_eq_self.mpr hseg1]
  simp only [hmid, decide_False, Bool.false_eq_true, if_false]
  rw [hseg3]
  simp only [List.length_append, List.length_map, List.length_range',
    List.length_nil]
  omega

theorem ctxLines_after (L : List String) (lineno : Nat) (h1 : 1 ≤ lineno)
    (h2 : lineno ≤ L.length) :
    ctxAfter (ctxLines L lineno) lineno = min 2 (L.length - lineno) := by
  unfold ctxAfter
  rw [ctxLines_split L lineno h1 h2, List.filter_append, List.filter_cons]
  have hmid : (lineno < lineno - 1 + 1) = False := by
    simp only [eq_iff_iff, iff_false]
    omega
  have hseg1 : ((List.range' (lineno - 3) ((lineno - 1) - (lineno - 3))).map
      (fun i => Line.contextLine (i + 1 == lineno) (i + 1) (L.getD i ""))).filter
      (fun l => match l with
        | Line.contextLine _ k _ => decide (lineno < k)
        | _ => false) = [] := by
    rw [List.filter_eq_nil_iff]
    intro x hx
    obtain ⟨i, hi, rfl⟩ := List.mem_map.mp hx
    have hb := List.mem_range'_1.mp hi
    simp only [decide_eq_true_eq, not_lt]
    omega
  have hseg3 : ∀ x ∈ (List.range' lineno (min L.length (lineno + 2) - lineno)).map
      (fun i => Line.contextLine (i + 1 == lineno) (i + 1) (L.getD i "")),
      (fun l => match l with
        | Line.contextLine _ k _ => decide (lineno < k)
        | _ => false) x = true := by
    intro x hx
    obtain ⟨i, hi, rfl⟩ := List.mem_map.mp hx
    have hb := List.mem_range'_1.mp hi
    simp only [decide_eq_true_eq]
    omega
  rw [hseg1, List.filter_eq_self.mpr hseg3]
  simp only [hmid, decide_False, Bool.false_eq_true, if_false]
  simp only [List.length_append, List.length_map, List.length_range',
    List.length_nil]
  omega

theorem ctxLines_marked (L : List String) (lineno : Nat) (h1 : 1 ≤ lineno)
    (h2 : lineno ≤ L.length) :
    ctxMarkedCount (ctxLines L lineno) = 1 := by
  unfold ctxMarkedCount
  rw [ctxLines_split L lineno h1 h2, List.filter_append, List.filter_cons]
  have hmid : (lineno - 1 + 1 == lineno) = true := by
    simp only [beq_iff_eq]
    omega
  have hseg1 : ((List.range' (lineno - 3) ((lineno - 1) - (lineno - 3))).map
      (fun i => Line.contextLine (i + 1 == lineno) (i + 1) (L.getD i ""))).filter
      (fun l => match l with
        | Line.contextLine mk _ _ => mk
        | _ => false) = [] := by
    rw [List.filter_eq_nil_iff]
    intro x hx
    obtain ⟨i, hi, rfl⟩ := List.mem_map.mp hx
    have hb := List.mem_range'_1.mp hi
    simp only [beq_iff_eq]
    omega
  have hseg3 : ((List.range' lineno (min L.length (lineno + 2) - lineno)).map
      (fun i => Line.contextLine (i + 1 == lineno) (i + 1) (L.getD i ""))).filter
      (fun l => match l with
        | Line.contextLine mk _ _ => mk
        | _ => false) = [] := by
    rw [List.filter_eq_nil_iff]
    intro x hx
    obtain ⟨i, hi, rfl⟩ := List.mem_map.mp hx
    have hb := List.mem_range'_1.mp hi
    simp only [beq_iff_eq]
    omega
  rw [hseg1, hseg3]
  simp [hmid]

theorem ctxLines_marked_mem (L : List String) (lineno : Nat) (h1 : 1 ≤ lineno)
    (h2 : lineno ≤ L.length) :
    Line.contextLine true lineno (L.getD (lineno - 1) "") ∈
      ctxLines L lineno := by
  rw [ctxLines_split L lineno h1 h2]
  refine List.mem_append.mpr (Or.inr ?_)
  have e3 : lineno - 1 + 1 = lineno := by omega
  rw [e3]
  have hmid : (lineno == lineno) = true := by simp
  rw [hmid]
  exact List.mem_cons_self _ _

theorem synErrorReport_not_structural (content msg : String)
    (lineno colno : Nat) :
    ∀ l ∈ synErrorReport content lineno colno msg,
      isStructuralLine l = false := by
  intro l hl
  rw [synErrorReport_eq] at hl
  rcases List.mem_append.mp hl with h | h
  · simp only [List.mem_cons, List.not_mem_nil, or_false] at h
    rcases h with rfl | rfl | rfl <;> rfl
  · unfold ctxLines at h
    obtain ⟨i, _, rfl⟩ := List.mem_map.mp h
    rfl

/-- C2 (amended): on a JSON syntax error the tool prints the parser's line and
column, returns failure and runs no structural check; the context block marks
exactly the offending line and shows up to two lines before it and up to two
lines after it (exactly `min 2` of what the file has on each side — in
particular fewer than two after only near the end of the file, not exactly
one in general). -/
theorem C2_amended_context (content msg : String) (lineno colno : Nat)
    (h1 : 1 ≤ lineno) (h2 : lineno ≤ (pySplitLines content).length) :
    validateContent content (.synError lineno colno msg) =
      .ok (synErrorReport content lineno colno msg, false) ∧
    Line.synErrHeader lineno colno ∈ synErrorReport content lineno colno msg ∧
    Line.contextLine true lineno ((pySplitLines content).getD (lineno - 1) "")
      ∈ synErrorReport content lineno colno msg ∧
    ctxMarkedCount (synErrorReport content lineno colno msg) = 1 ∧
    ctxBefore (synErrorReport content lineno colno msg) lineno =
      min 2 (lineno - 1) ∧
    ctxAfter (synErrorReport content lineno colno msg) lineno =
      min 2 ((pySplitLines content).length - lineno) ∧
    ∀ l ∈ synErrorReport content lineno colno msg,
      isStructuralLine l = false := by
  refine ⟨rfl, ?_, ?_, ?_, ?_, ?_, synErrorReport_not_structural _ _ _ _⟩
  · rw [synErrorReport_eq]
    exact List.mem_append.mpr (Or.inl (List.mem_cons_self _ _))
  · rw [synErrorReport_eq]
    exact List.mem_append.mpr
      (Or.inr (ctxLines_marked_mem (pySplitLines content) lineno h1 h2))
  · have hh : ctxMarkedCount (synErrorReport content lineno colno msg) =
        ctxMarkedCount (ctxLines (pySplitLines content) lineno) := by
      rw [synErrorReport_eq]
      rfl
    rw [hh]
    exact ctxLines_marked (pySplitLines content) lineno h1 h2
  · have hh : ctxBefore (synErrorReport content lineno colno msg) lineno =
        ctxBefore (ctxLines (pySplitLines content) lineno) lineno := by
      rw [synErrorReport_eq]
      rfl
    rw [hh]
    exact ctxLines_before (pySplitLines content) lineno h1 h2
  · have hh : ctxAfter (synErrorReport content lineno colno msg) lineno =
        ctxAfter (ctxLines (pySplitLines content) lineno) lineno := by
      rw [synErrorReport_eq]
      rfl
    rw [hh]
    exact ctxLines_after (pySplitLines content) lineno h1 h2

/-- C2 (counterexample): on the five-line invalid input `"[\n1,\n;\n2,\n3]"`
the parser reports line 3, and the context printed after the offending line is
two lines, not exactly one as claimed. -/
theorem C2_counterexample :
    validateContent c2Content (.synError 3 1 "Expecting value") =
      .ok (synErrorReport c2Content 3 1 "Expecting value", false) ∧
    ctxAfter (synErrorReport c2Content 3 1 "Expecting value") 3 = 2 ∧
    (2 : Nat) ≠ 1 :=
  ⟨rfl, by decide, by decide⟩

/-- C2 (witness): the amended statement at the one-line invalid input `"x"`
(error at line 1, column 1). -/
theorem C2_witness :
    validateContent "x" (.synError 1 1 "Expecting value") =
      .ok (synErrorReport "x" 1 1 "Expecting value", false) ∧
    ctxMarkedCount (synErrorReport "x" 1 1 "Expecting value") = 1 ∧
    ctxBefore (synErrorReport "x" 1 1 "Expecting value") 1 = min 2 0 ∧
    ctxAfter (synErrorReport "x" 1 1 "Expecting value") 1 =
      min 2 ((pySplitLines "x").length - 1) ∧
    isStructuralLine (Line.synErrHeader 1 1) = false := by
  have h := C2_amended_context "x" "Expecting value" 1 1 (by decide) (by decide)
  exact ⟨h.1, h.2.2.2.1, h.2.2.2.2.1, h.2.2.2.2.2.1, h.2.2.2.2.2.2 _ h.2.1⟩

/-! ## Claim C4 -/

theorem assocAppend_fresh (idx : Index) (key : JValue) (e : Nat × JValue)
    (h : ∀ g ∈ idx, pyKeyEq g.1 key = false) :
    assocAppend idx key e = idx ++ [(key, [e])] := by
  induction idx with
  | nil => rfl
  | cons hd tl ih =>
    obtain ⟨k0, l⟩ := hd
    have hk : pyKeyEq k0 key = false := h (k0, l) (List.mem_cons_self _ _)
    simp only [assocAppend, hk, Bool.false_eq_true, if_false, List.cons_append,
      List.cons.injEq, true_and]
    exact ih (fun g hg => h g (List.mem_cons_of_mem _ hg))

/-- A run over well-formed entries with pairwise-distinct urls and names never
fails, records no issue, and extends each index by one singleton group per
entry. -/
theorem processList_wf (ms : List JValue) (i0 : Nat) (st0 : LoopState)
    (hwf : ∀ m ∈ ms, wfEntry m)
    (hfu : ∀ m ∈ ms, ∀ g ∈ st0.urlIndex, pyKeyEq g.1 (urlOf m) = false)
    (hfn : ∀ m ∈ ms, ∀ g ∈ st0.nameIndex, pyKeyEq g.1 (nameOf m) = false)
    (hpu : (ms.map urlOf).Pairwise (fun a b => pyKeyEq a b = false))
    (hpn : (ms.map nameOf).Pairwise (fun a b => pyKeyEq a b = false)) :
    processList st0 i0 ms = .ok
      ⟨st0.issues, st0.urlIndex ++ idxOfUrls i0 ms,
        st0.nameIndex ++ idxOfNames i0 ms⟩ := by
  induction ms generalizing i0 st0 with
  | nil => simp [processList, idxOfUrls, idxOfNames]
  | cons m rest ih =>
    have hm := hwf m (List.mem_cons_self _ _)
    cases m with
    | obj kvs =>
      obtain ⟨hk1, hk2, hk3, ⟨u, hu, hune⟩, ⟨n, hn, hnne⟩⟩ := hm
      have hiss : entryIssues i0 (.obj kvs) = [] := by
        simp [entryIssues, requiredFields, hk1, hk2, hk3]
      have hut : jTruthy (.str u) = true := (jTruthy_str u).mpr hune
      have hnt : jTruthy (.str n) = true := (jTruthy_str n).mpr hnne
      have hufresh : ∀ g ∈ st0.urlIndex, pyKeyEq g.1 (.str u) = false := by
        intro g hg
        have := hfu (.obj kvs) (List.mem_cons_self _ _) g hg
        rwa [urlOf, hu] at this
      have hnfresh : ∀ g ∈ st0.nameIndex, pyKeyEq g.1 (.str n) = false := by
        intro g hg
        have := hfn (.obj kvs) (List.mem_cons_self _ _) g hg
        rwa [nameOf, hn] at this
      have hstep : processEntry st0 i0 (.obj kvs) = .ok
          ⟨st0.issues, st0.urlIndex ++ [(.str u, [(i0, .str n)])],
            st0.nameIndex ++ [(.str n, [(i0, .str u)])]⟩ := by
        simp only [processEntry, hiss, hu, hn, hut, hnt, if_true,
          List.append_nil, indexAppend, pyHashable, assocAppend_fresh
            st0.urlIndex (.str u) (i0, .str n) hufresh, assocAppend_fresh
            st0.nameIndex (.str n) (i0, .str u) hnfresh]
      simp only [processList, hstep]
      have hpu1 : (∀ a ∈ rest, pyKeyEq (urlOf (JValue.obj kvs)) (urlOf a) = false) ∧
          List.Pairwise (fun a b => pyKeyEq a b = false) (rest.map urlOf) := by
        simpa using hpu
      have hpn1 : (∀ a ∈ rest, pyKeyEq (nameOf (JValue.obj kvs)) (nameOf a) = false) ∧
          List.Pairwise (fun a b => pyKeyEq a b = false) (rest.map nameOf) := by
        simpa using hpn
      have ihh := ih (i0 + 1)
        ⟨st0.issues, st0.urlIndex ++ [(.str u, [(i0, .str n)])],
          st0.nameIndex ++ [(.str n, [(i0, .str u)])]⟩
        (fun m2 hm2 => hwf m2 (List.mem_cons_of_mem _ hm2))
        (by
          intro m2 hm2 g hg
          rcases List.mem_append.mp hg with hg0 | hg1
          · exact hfu m2 (List.mem_cons_of_mem _ hm2) g hg0
          · have hg2 : g = (JValue.str u, [(i0, JValue.str n)]) := by
              simpa using hg1
            subst hg2
            have := hpu1.1 m2 hm2
            rwa [urlOf, hu] at this)
        (by
          intro m2 hm2 g hg
          rcases List.mem_append.mp hg with hg0 | hg1
          · exact hfn m2 (List.mem_cons_of_mem _ hm2) g hg0
          · have hg2 : g = (JValue.str n, [(i0, JValue.str u)]) := by
              simpa using hg1
            subst hg2
            have := hpn1.1 m2 hm2
            rwa [nameOf, hn] at this)
        hpu1.2 hpn1.2
      rw [ihh]
      simp [idxOfUrls, idxOfNames, urlOf, nameOf, hu, hn, List.append_assoc]
    | null => simp [wfEntry] at hm
    | bool b => simp [wfEntry] at hm
    | num v => simp [wfEntry] at hm
    | str s => simp [wfEntry] at hm
    | arr xs => simp [wfEntry] at hm

theorem dupFilter_idxOfUrls (i : Nat) (ms : List JValue) :
    dupFilter (idxOfUrls i ms) = [] := by
  induction ms generalizing i with
  | nil => rfl
  | cons m rest ih => simp [idxOfUrls, dupFilter, List.filter] at ih ⊢; exact ih _

theorem dupFilter_idxOfNames (i : Nat) (ms : List JValue) :
    dupFilter (idxOfNames i ms) = [] := by
  induction ms generalizing i with
  | nil => rfl
  | cons m rest ih => simp [idxOfNames, dupFilter, List.filter] at ih ⊢; exact ih _

/-- C4 (confirmed): a manifest whose root object has a `models` list of
well-formed entries (objects with all three required fields, non-empty string
`url`s pairwise distinct, non-empty string `model_name`s pairwise distinct)
produces zero issues, prints the success message, returns success, and exits
with code 0. -/
theorem C4_valid_manifest (kvs : List (String × JValue)) (models : List JValue)
    (hk : hasKey kvs "models" = true)
    (hm : jGetD kvs "models" .null = .arr models)
    (hwf : ∀ m ∈ models, wfEntry m)
    (hpu : (models.map urlOf).Pairwise (fun a b => a ≠ b))
    (hpn : (models.map nameOf).Pairwise (fun a b => a ≠ b)) :
    validateDoc (.obj kvs) =
      .ok ([.synOk, .totalModels models.length, .noIssues], true) ∧
    exitCode true = 0 := by
  have hstr : ∀ x ∈ models.map urlOf, ∃ s, x = JValue.str s := by
    intro x hx
    obtain ⟨m, hm2, rfl⟩ := List.mem_map.mp hx
    have := hwf m hm2
    cases m with
    | obj kvs2 =>
      obtain ⟨_, _, _, ⟨u, hu, _⟩, _⟩ := this
      exact ⟨u, by rw [urlOf, hu]⟩
    | null => simp [wfEntry] at this
    | bool b => simp [wfEntry] at this
    | num v => simp [wfEntry] at this
    | str s => simp [wfEntry] at this
    | arr xs => simp [wfEntry] at this
  have hstrn : ∀ x ∈ models.map nameOf, ∃ s, x = JValue.str s := by
    intro x hx
    obtain ⟨m, hm2, rfl⟩ := List.mem_map.mp hx
    have := hwf m hm2
    cases m with
    | obj kvs2 =>
      obtain ⟨_, _, _, _, ⟨n, hn, _⟩⟩ := this
      exact ⟨n, by rw [nameOf, hn]⟩
    | null => simp [wfEntry] at this
    | bool b => simp [wfEntry] at this
    | num v => simp [wfEntry] at this
    | str s => simp [wfEntry] at this
    | arr xs => simp [wfEntry] at this
  have hpu2 : (models.map urlOf).Pairwise (fun a b => pyKeyEq a b = false) := by
    refine hpu.imp_of_mem ?_
    intro a b ha hb hne
    obtain ⟨sa, rfl⟩ := hstr a ha
    obtain ⟨sb, rfl⟩ := hstr b hb
    have : sa ≠ sb := fun h => hne (by rw [h])
    simp [pyKeyEq, this]
  have hpn2 : (models.map nameOf).Pairwise (fun a b => pyKeyEq a b = false) := by
    refine hpn.imp_of_mem ?_
    intro a b ha hb hne
    obtain ⟨sa, rfl⟩ := hstrn a ha
    obtain ⟨sb, rfl⟩ := hstrn b hb
    have : sa ≠ sb := fun h => hne (by rw [h])
    simp [pyKeyEq, this]
  have hbs : buildState models =
      .ok ⟨[], idxOfUrls 0 models, idxOfNames 0 models⟩ := by
    have := processList_wf models 0 ⟨[], [], []⟩ hwf
      (by intro m _ g hg; cases hg) (by intro m _ g hg; cases hg) hpu2 hpn2
    simpa [buildState] using this
  refine ⟨?_, rfl⟩
  simp only [validateDoc, hk, if_true, hm, hbs, dupFilter_idxOfUrls,
    dupFilter_idxOfNames]
  simp

/-- C4 (witness): the statement at a concrete two-entry manifest. -/
theorem C4_witness :
    validateDoc (.obj [("models", .arr
      [mkEntry (.str "a") (.str "u1") (.str "d"),
        mkEntry (.str "b") (.str "u2") (.str "d")])]) =
      .ok ([.synOk, .totalModels 2, .noIssues], true) ∧
    exitCode true = 0 := by
  refine C4_valid_manifest
    [("models", .arr [mkEntry (.str "a") (.str "u1") (.str "d"),
      mkEntry (.str "b") (.str "u2") (.str "d")])]
    [mkEntry (.str "a") (.str "u1") (.str "d"),
      mkEntry (.str "b") (.str "u2") (.str "d")] rfl rfl ?_ ?_ ?_
  · intro m hm
    simp only [List.mem_cons, List.not_mem_nil, or_false] at hm
    rcases hm with rfl | rfl
    · exact ⟨rfl, rfl, rfl, ⟨"u1", rfl, by decide⟩, ⟨"a", rfl, by decide⟩⟩
    · exact ⟨rfl, rfl, rfl, ⟨"u2", rfl, by decide⟩, ⟨"b", rfl, by decide⟩⟩
  · refine List.Pairwise.cons ?_ (List.pairwise_singleton _ _)
    intro b hb hcontra
    simp only [List.map_cons, List.map_nil, List.mem_cons, List.not_mem_nil,
      or_false] at hb
    subst hb
    have : ("u1" : String) = "u2" := by
      injection hcontra
    exact absurd this (by decide)
  · refine List.Pairwise.cons ?_ (List.pairwise_singleton _ _)
    intro b hb hcontra
    simp only [List.map_cons, List.map_nil, List.mem_cons, List.not_mem_nil,
      or_false] at hb
    subst hb
    have : ("a" : String) = "b" := by
      injection hcontra
    exact absurd this (by decide)

/-! ## Claim C9 -/

theorem isStr_iff (v : JValue) : isStr v = true ↔ ∃ s, v = .str s := by
  cases v <;> simp [isStr]

theorem processEntry_non_obj (st : LoopState) (i : Nat) (m : JValue)
    (h : isObj m = false) :
    processEntry st i m =
      .ok ⟨st.issues ++ [.notObject i m], st.urlIndex, st.nameIndex⟩ := by
  cases m <;> first
    | rfl
    | simp [isObj] at h

theorem assocAppend_str {idx : Index} {key : JValue} {e : Nat × JValue}
    (hidx : ∀ g ∈ idx, isStr g.1 = true ∧ ∀ p ∈ g.2, isStr p.2 = true)
    (hkey : isStr key = true) (he : isStr e.2 = true) :
    ∀ g ∈ assocAppend idx key e,
      isStr g.1 = true ∧ ∀ p ∈ g.2, isStr p.2 = true := by
  induction idx with
  | nil =>
    intro g hg
    simp only [assocAppend, List.mem_singleton] at hg
    subst hg
    refine ⟨hkey, ?_⟩
    intro p hp
    simp only [List.mem_singleton] at hp
    subst hp
    exact he
  | cons hd tl ih =>
    obtain ⟨k0, l⟩ := hd
    intro g hg
    by_cases hk : pyKeyEq k0 key = true
    · simp only [assocAppend, hk, if_true, List.mem_cons] at hg
      rcases hg with rfl | hg
      · refine ⟨(hidx (k0, l) (List.mem_cons_self _ _)).1, ?_⟩
        intro p hp
        rcases List.mem_append.mp hp with hp0 | hp1
        · exact (hidx (k0, l) (List.mem_cons_self _ _)).2 p hp0
        · simp only [List.mem_singleton] at hp1
          subst hp1
          exact he
      · exact hidx g (List.mem_cons_of_mem _ hg)
    · simp only [assocAppend, hk, Bool.false_eq_true, if_false,
        List.mem_cons] at hg
      rcases hg with rfl | hg
      · exact hidx (k0, l) (List.mem_cons_self _ _)
      · exact ih (fun g2 hg2 => hidx g2 (List.mem_cons_of_mem _ hg2)) g hg

/-- A run over entries whose tracked field values are strings never raises:
the loop completes and both indices hold only strings. -/
theorem processList_str (ms : List JValue) (i0 : Nat) (st0 : LoopState)
    (h : ∀ m ∈ ms, strFieldsEntry m) (hst : allStrState st0) :
    ∃ st, processList st0 i0 ms = .ok st ∧ allStrState st := by
  induction ms generalizing i0 st0 with
  | nil => exact ⟨st0, rfl, hst⟩
  | cons m rest ih =>
    have hrest : ∀ m2 ∈ rest, strFieldsEntry m2 :=
      fun m2 hm2 => h m2 (List.mem_cons_of_mem _ hm2)
    by_cases hobj : isObj m = true
    · obtain ⟨kvs, rfl⟩ : ∃ kvs, m = .obj kvs := by
        cases m <;> simp [isObj] at hobj ⊢
      obtain ⟨hu, hn⟩ := h (.obj kvs) (List.mem_cons_self _ _)
      obtain ⟨su, hsu⟩ := (isStr_iff _).mp hu
      obtain ⟨sn, hsn⟩ := (isStr_iff _).mp hn
      have hstep : ∃ st1, processEntry st0 i0 (.obj kvs) = .ok st1 ∧
          allStrState st1 := by
        simp only [processEntry, hsu, hsn, indexAppend, pyHashable, if_true]
        by_cases htu : jTruthy (.str su) = true <;>
          by_cases htn : jTruthy (.str sn) = true <;>
            simp only [htu, htn, if_true, if_false, Bool.false_eq_true]
        · refine ⟨_, rfl, ?_, ?_⟩
          · exact assocAppend_str hst.1 (by simp [isStr]) (by simp [isStr, hsn])
          · exact assocAppend_str hst.2 (by simp [isStr]) (by simp [isStr, hsu])
        · refine ⟨_, rfl, ?_, hst.2⟩
          exact assocAppend_str hst.1 (by simp [isStr]) (by simp [isStr, hsn])
        · refine ⟨_, rfl, hst.1, ?_⟩
          exact assocAppend_str hst.2 (by simp [isStr]) (by simp [isStr, hsu])
        · exact ⟨_, rfl, hst.1, hst.2⟩
      obtain ⟨st1, he1, hp1⟩ := hstep
      obtain ⟨st2, he2, hp2⟩ := ih (i0 + 1) st1 hrest hp1
      exact ⟨st2, by simp only [processList, he1, he2], hp2⟩
    · have hobj2 : isObj m = false := by
        cases hb : isObj m
        · rfl
        · exact absurd hb hobj
      have he1 := processEntry_non_obj st0 i0 m hobj2
      obtain ⟨st2, he2, hp2⟩ := ih (i0 + 1)
        ⟨st0.issues ++ [.notObject i0 m], st0.urlIndex, st0.nameIndex⟩
        hrest ⟨hst.1, hst.2⟩
      exact ⟨st2, by simp only [processList, he1, he2], hp2⟩

theorem dupNameEntryLines_str (es : List (Nat × JValue))
    (h : ∀ p ∈ es, isStr p.2 = true) :
    ∃ ls, dupNameEntryLines es = .ok ls := by
  induction es with
  | nil => exact ⟨[], rfl⟩
  | cons p rest ih =>
    obtain ⟨i, u⟩ := p
    obtain ⟨su, hsu⟩ := (isStr_iff _).mp (h (i, u) (List.mem_cons_self _ _))
    obtain ⟨ls, hls⟩ := ih (fun q hq => h q (List.mem_cons_of_mem _ hq))
    subst hsu
    exact ⟨.dupNameEntry i
        (.str (if su.length < 60 then su else su.take 57 ++ "...")) :: ls,
      by simp only [dupNameEntryLines, displayUrl_str_eq, hls]⟩

theorem reportDupNamesGroups_str (dups : Index)
    (h : ∀ g ∈ dups, ∀ p ∈ g.2, isStr p.2 = true) :
    ∃ ls, reportDupNamesGroups dups = .ok ls := by
  induction dups with
  | nil => exact ⟨[], rfl⟩
  | cons g rest ih =>
    obtain ⟨n, es⟩ := g
    obtain ⟨ls1, hls1⟩ :=
      dupNameEntryLines_str es (h (n, es) (List.mem_cons_self _ _))
    obtain ⟨ls2, hls2⟩ := ih (fun g2 hg2 => h g2 (List.mem_cons_of_mem _ hg2))
    exact ⟨.dupNameKey n :: (ls1 ++ ls2),
      by simp only [reportDupNamesGroups, hls1, hls2]⟩

/-- If every entry's tracked field values are strings, the whole validation of
the parsed document returns normally. -/
theorem validateDoc_total (models : List JValue)
    (h : ∀ m ∈ models, strFieldsEntry m) :
    isOkRun (validateDoc (mkDoc models)) = true := by
  obtain ⟨st, hbs, hstr⟩ := processList_str models 0 ⟨[], [], []⟩ h
    ⟨fun g hg => absurd hg (List.not_mem_nil g),
      fun g hg => absurd hg (List.not_mem_nil g)⟩
  have hbs' : buildState models = .ok st := hbs
  have hk : hasKey [("models", JValue.arr models)] "models" = true := rfl
  have hm : jGetD [("models", JValue.arr models)] "models" .null =
      .arr models := rfl
  by_cases hdn : (dupFilter st.nameIndex).isEmpty = true
  · simp only [validateDoc, mkDoc, hk, if_true, hm, hbs', hdn]
    rfl
  · obtain ⟨ls, hls⟩ := reportDupNamesGroups_str (dupFilter st.nameIndex)
      (fun g hg => (hstr.2 g (List.mem_of_mem_filter hg)).2)
    have hdn2 : (dupFilter st.nameIndex).isEmpty = false := by
      cases hb : (dupFilter st.nameIndex).isEmpty
      · rfl
      · exact absurd hb hdn
    simp only [validateDoc, mkDoc, hk, if_true, hm, hbs', hdn2,
      Bool.false_eq_true, if_false, hls]
    rfl

/-- C9 (counterexample): the string precondition is not necessary for normal
return — a manifest whose only entry has the numeric url `5` (present, truthy,
not a string) validates normally and even succeeds, refuting "total only under
the precondition that every indexed url value is a string". -/
theorem C9_counterexample :
    validateDoc (mkDoc [mkEntry (.str "a") (.num 5) (.str "d")]) =
      .ok ([.synOk, .totalModels 1, .noIssues], true) ∧
    isStr (jGetD [("model_name", JValue.str "a"), ("url", JValue.num 5),
      ("directory", JValue.str "d")] "url" (.str "")) = false :=
  ⟨rfl, rfl⟩

/-- C9 (amended): having every entry's present `url` AND `model_name` be
strings is a sufficient (not necessary) condition for `validate_models` to
return a boolean normally; it is needed in general because the truncation step
applies `len` to the urls stored in the name-index — a duplicated non-empty
`model_name` with truthy numeric urls crashes there with a `TypeError` — and
because a truthy unhashable `model_name` (e.g. a list) already crashes at
indexing even when every url is a string. -/
theorem C9_amended_string_precondition (models : List JValue)
    (h : ∀ m ∈ models, strFieldsEntry m) :
    isOkRun (validateDoc (mkDoc models)) = true ∧
    validateDoc (mkDoc [mkEntry (.str "a") (.num 5) (.str "d"),
      mkEntry (.str "a") (.num 7) (.str "d")]) =
      .error (.typeError "object has no len") ∧
    validateDoc (mkDoc [.obj [("model_name", .arr [.num 1]),
      ("url", .str "u"), ("directory", .str "d")]]) =
      .error (.typeError "unhashable type") :=
  ⟨validateDoc_total models h, rfl, rfl⟩

/-- C9 (witness): the amended statement at a concrete all-string manifest. -/
theorem C9_witness :
    isOkRun (validateDoc
      (mkDoc [mkEntry (.str "a") (.str "u") (.str "d")])) = true ∧
    validateDoc (mkDoc [mkEntry (.str "a") (.num 5) (.str "d"),
      mkEntry (.str "a") (.num 7) (.str "d")]) =
      .error (.typeError "object has no len") ∧
    validateDoc (mkDoc [.obj [("model_name", .arr [.num 1]),
      ("url", .str "u"), ("directory", .str "d")]]) =
      .error (.typeError "unhashable type") := by
  refine C9_amended_string_precondition
    [mkEntry (.str "a") (.str "u") (.str "d")] ?_
  intro m hm
  simp only [List.mem_cons, List.not_mem_nil, or_false] at hm
  subst hm
  exact ⟨rfl, rfl⟩

/-! ## Claim C6 -/

theorem processEntry_issues {st st' : LoopState} {i : Nat} {m : JValue}
    (h : processEntry st i m = .ok st') :
    st'.issues = st.issues ++ entryIssues i m := by
  cases m with
  | obj kvs => exact (processEntry_obj_ok h).1
  | null => simp only [processEntry] at h; cases h; rfl
  | bool b => simp only [processEntry] at h; cases h; rfl
  | num v => simp only [processEntry] at h; cases h; rfl
  | str s => simp only [processEntry] at h; cases h; rfl
  | arr xs => simp only [processEntry] at h; cases h; rfl

/-- A completing loop accumulates exactly every entry's issues, in order: no
entry is skipped and nothing halts the scan early. -/
theorem processList_issues (ms : List JValue) (i0 : Nat) (st0 st : LoopState)
    (h : processList st0 i0 ms = .ok st) :
    st.issues = st0.issues ++ allEntryIssues i0 ms := by
  induction ms generalizing i0 st0 with
  | nil =>
    simp only [processList] at h
    cases h
    simp [allEntryIssues]
  | cons m rest ih =>
    simp only [processList] at h
    cases he : processEntry st0 i0 m with
    | error e => rw [he] at h; cases h
    | ok st1 =>
      rw [he] at h
      have h1 := processEntry_issues he
      have h2 := ih (i0 + 1) st1 h
      rw [h2, h1, allEntryIssues, List.append_assoc]

theorem reportDupNamesGroups_mem {dups : Index} {ls : List Line}
    (h : reportDupNamesGroups dups = .ok ls) :
    ∀ g ∈ dups, Line.dupNameKey g.1 ∈ ls := by
  induction dups generalizing ls with
  | nil => intro g hg; cases hg
  | cons hd rest ih =>
    obtain ⟨n, es⟩ := hd
    simp only [reportDupNamesGroups] at h
    cases he : dupNameEntryLines es with
    | error e => rw [he] at h; cases h
    | ok ls1 =>
      rw [he] at h
      cases hr : reportDupNamesGroups rest with
      | error e => rw [hr] at h; cases h
      | ok ls2 =>
        rw [hr] at h
        cases h
        intro g hg
        rcases List.mem_cons.mp hg with rfl | hg2
        · exact List.mem_cons_self _ _
        · exact List.mem_cons_of_mem _
            (List.mem_append.mpr (Or.inr (ih hr g hg2)))

/-- Inversion of a completed structural run: every accumulated issue and every
duplicate group key appears in the printed report, and the boolean result is
success exactly when nothing was found. -/
theorem validateDoc_report (kvs : List (String × JValue)) (models : List JValue)
    (st : LoopState) (lines : List Line) (b : Bool)
    (hk : hasKey kvs "models" = true)
    (hm : jGetD kvs "models" .null = .arr models)
    (hst : buildState models = .ok st)
    (hv : validateDoc (.obj kvs) = .ok (lines, b)) :
    (∀ iss ∈ st.issues, Line.issueLine iss ∈ lines) ∧
    (∀ g ∈ dupFilter st.urlIndex, Line.dupUrlKey g.1 ∈ lines) ∧
    (∀ g ∈ dupFilter st.nameIndex, Line.dupNameKey g.1 ∈ lines) ∧
    (b = false ↔ ¬(st.issues = [] ∧ dupFilter st.urlIndex = [] ∧
      dupFilter st.nameIndex = [])) := by
  simp only [validateDoc, hk, if_true, hm, hst] at hv
  have main : ∀ nameLines,
      (dupFilter st.nameIndex).isEmpty = false →
      reportDupNamesGroups (dupFilter st.nameIndex) = .ok nameLines →
      lines = [Line.synOk, Line.totalModels models.length] ++
        (if st.issues.isEmpty then []
          else Line.fieldIssuesHeader st.issues.length ::
            st.issues.map Line.issueLine) ++
        (if (dupFilter st.urlIndex).isEmpty then []
          else Line.dupUrlsHeader (dupFilter st.urlIndex).length ::
            dupUrlLines (dupFilter st.urlIndex)) ++
        (Line.dupNamesHeader (dupFilter st.nameIndex).length :: nameLines) ++
        [Line.summary st.issues.length (dupFilter st.urlIndex).length
          (dupFilter st.nameIndex).length] →
      b = false →
      (∀ iss ∈ st.issues, Line.issueLine iss ∈ lines) ∧
      (∀ g ∈ dupFilter st.urlIndex, Line.dupUrlKey g.1 ∈ lines) ∧
      (∀ g ∈ dupFilter st.nameIndex, Line.dupNameKey g.1 ∈ lines) ∧
      (b = false ↔ ¬(st.issues = [] ∧ dupFilter st.urlIndex = [] ∧
        dupFilter st.nameIndex = [])) := by
    intro nameLines hdn hr hlines hb
    have hdn2 : dupFilter st.nameIndex ≠ [] := List.isEmpty_eq_false.mp hdn
    subst hlines
    refine ⟨?_, ?_, ?_, ?_⟩
    · intro iss hiss
      have hne : st.issues.isEmpty = false :=
        List.isEmpty_eq_false.mpr (fun h0 => by rw [h0] at hiss; cases hiss)
      refine List.mem_append.mpr (Or.inl (List.mem_append.mpr (Or.inl
        (List.mem_append.mpr (Or.inl (List.mem_append.mpr (Or.inr ?_)))))))
      rw [hne]
      simp only [Bool.false_eq_true, if_false]
      exact List.mem_cons_of_mem _ (List.mem_map.mpr ⟨iss, hiss, rfl⟩)
    · intro g hg
      have hne : (dupFilter st.urlIndex).isEmpty = false :=
        List.isEmpty_eq_false.mpr (fun h0 => by rw [h0] at hg; cases hg)
      refine List.mem_append.mpr (Or.inl (List.mem_append.mpr (Or.inl
        (List.mem_append.mpr (Or.inr ?_)))))
      rw [hne]
      simp only [Bool.false_eq_true, if_false]
      refine List.mem_cons_of_mem _ (List.mem_flatMap.mpr ⟨g, hg, ?_⟩)
      exact List.mem_cons_self _ _
    · intro g hg
      refine List.mem_append.mpr (Or.inl (List.mem_append.mpr (Or.inr ?_)))
      exact List.mem_cons_of_mem _ (reportDupNamesGroups_mem hr g hg)
    · rw [hb]
      simp only [true_iff]
      intro hcon
      exact hdn2 hcon.2.2
  by_cases hdn : (dupFilter st.nameIndex).isEmpty = true
  · have hdn3 : dupFilter st.nameIndex = [] := List.isEmpty_iff.mp hdn
    simp only [hdn, if_true] at hv
    rw [Except.ok.injEq, Prod.mk.injEq] at hv
    obtain ⟨hlines, hb⟩ := hv
    subst hlines
    subst hb
    refine ⟨?_, ?_, ?_, ?_⟩
    · intro iss hiss
      have hne : st.issues.isEmpty = false :=
        List.isEmpty_eq_false.mpr (fun h0 => by rw [h0] at hiss; cases hiss)
      refine List.mem_append.mpr (Or.inl (List.mem_append.mpr (Or.inl
        (List.mem_append.mpr (Or.inl (List.mem_append.mpr (Or.inr ?_)))))))
      rw [hne]
      simp only [Bool.false_eq_true, if_false]
      exact List.mem_cons_of_mem _ (List.mem_map.mpr ⟨iss, hiss, rfl⟩)
    · intro g hg
      have hne : (dupFilter st.urlIndex).isEmpty = false :=
        List.isEmpty_eq_false.mpr (fun h0 => by rw [h0] at hg; cases hg)
      refine List.mem_append.mpr (Or.inl (List.mem_append.mpr (Or.inl
        (List.mem_append.mpr (Or.inr ?_)))))
      rw [hne]
      simp only [Bool.false_eq_true, if_false]
      refine List.mem_cons_of_mem _ (List.mem_flatMap.mpr ⟨g, hg, ?_⟩)
      exact List.mem_cons_self _ _
    · intro g hg
      rw [hdn3] at hg
      cases hg
    · rw [hdn3]
      simp [List.isEmpty_iff, Bool.and_eq_true, List.isEmpty_eq_false,
        Bool.eq_false_iff, not_and_or, Classical.not_not, and_true,
        Decidable.not_not]
  · have hdnf : (dupFilter st.nameIndex).isEmpty = false := by
      cases hb2 : (dupFilter st.nameIndex).isEmpty
      · rfl
      · exact absurd hb2 hdn
    simp only [hdnf, Bool.false_eq_true, if_false] at hv
    cases hr : reportDupNamesGroups (dupFilter st.nameIndex) with
    | error e => rw [hr] at hv; cases hv
    | ok nameLines =>
      rw [hr] at hv
      rw [Except.ok.injEq, Prod.mk.injEq] at hv
      obtain ⟨hlines, hb⟩ := hv
      have hb2 : b = false := by
        rw [← hb]
        have : dupFilter st.nameIndex ≠ [] := List.isEmpty_eq_false.mp hdnf
        simp [List.isEmpty_eq_false.mpr this]
      refine main nameLines hdnf hr ?_ hb2
      rw [← hlines]
      simp only [Bool.and_false, Bool.false_eq_true, if_false]

/-- C6 (amended): FileNotFound, FileReadError and JsonSyntaxError are fatal —
each produces only its own report and returns failure, with no structural
check run — while field issues and duplicate groups are non-fatal and
accumulate: a completed loop collects exactly every entry's issues in order,
and a completed structural run prints every accumulated issue and every
duplicate group before returning, failing exactly when anything was found.
(The accumulation statements are conditional on the run completing: a raised
`TypeError` — see C9 — aborts the scan instead.) -/
theorem C6_fatal_vs_accumulating :
    (∀ p, validateModels p .notFound = .ok ([.fileNotFound p], false)) ∧
    (∀ p m, validateModels p (.readFail m) = .ok ([.readErrorLine m], false)) ∧
    (∀ p c l co m, validateModels p (.content c (.synError l co m)) =
        .ok (synErrorReport c l co m, false) ∧
      ∀ ln ∈ synErrorReport c l co m, isStructuralLine ln = false) ∧
    (∀ models st, buildState models = .ok st →
      st.issues = allEntryIssues 0 models) ∧
    (∀ kvs models st lines b, hasKey kvs "models" = true →
      jGetD kvs "models" .null = .arr models →
      buildState models = .ok st →
      validateDoc (.obj kvs) = .ok (lines, b) →
      (∀ iss ∈ st.issues, Line.issueLine iss ∈ lines) ∧
      (∀ g ∈ dupFilter st.urlIndex, Line.dupUrlKey g.1 ∈ lines) ∧
      (∀ g ∈ dupFilter st.nameIndex, Line.dupNameKey g.1 ∈ lines) ∧
      (b = false ↔ ¬(st.issues = [] ∧ dupFilter st.urlIndex = [] ∧
        dupFilter st.nameIndex = []))) := by
  refine ⟨fun p => rfl, fun p m => rfl,
    fun p c l co m => ⟨rfl, synErrorReport_not_structural c m l co⟩,
    fun models st h => by simpa using processList_issues models 0 ⟨[], [], []⟩ st h,
    fun kvs models st lines b hk hm hst hv =>
      validateDoc_report kvs models st lines b hk hm hst hv⟩

/-- C6 (witness): a concrete manifest with one non-object entry and one
duplicate-URL pair — the issue line and the duplicate group key both appear in
the completed report, which returns failure; and a missing file halts with
only its own report. -/
theorem C6_witness :
    validateModels "f" .notFound = .ok ([.fileNotFound "f"], false) ∧
    Line.issueLine (.notObject 0 (.str "bad")) ∈
      [Line.synOk, Line.totalModels 3, Line.fieldIssuesHeader 1,
        Line.issueLine (.notObject 0 (.str "bad")), Line.dupUrlsHeader 1,
        Line.dupUrlKey (.str "u"), Line.dupUrlEntry 1 (.str "a"),
        Line.dupUrlEntry 2 (.str "b"), Line.summary 1 1 0] ∧
    Line.dupUrlKey (.str "u") ∈
      [Line.synOk, Line.totalModels 3, Line.fieldIssuesHeader 1,
        Line.issueLine (.notObject 0 (.str "bad")), Line.dupUrlsHeader 1,
        Line.dupUrlKey (.str "u"), Line.dupUrlEntry 1 (.str "a"),
        Line.dupUrlEntry 2 (.str "b"), Line.summary 1 1 0] := by
  have h := C6_fatal_vs_accumulating
  have h5 := h.2.2.2.2
    [("models", .arr [.str "bad", mkEntry (.str "a") (.str "u") (.str "d"),
      mkEntry (.str "b") (.str "u") (.str "d")])]
    [.str "bad", mkEntry (.str "a") (.str "u") (.str "d"),
      mkEntry (.str "b") (.str "u") (.str "d")]
    ⟨[.notObject 0 (.str "bad")],
      [(.str "u", [(1, .str "a"), (2, .str "b")])],
      [(.str "a", [(1, .str "u")]), (.str "b", [(2, .str "u")])]⟩
    [Line.synOk, Line.totalModels 3, Line.fieldIssuesHeader 1,
      Line.issueLine (.notObject 0 (.str "bad")), Line.dupUrlsHeader 1,
      Line.dupUrlKey (.str "u"), Line.dupUrlEntry 1 (.str "a"),
      Line.dupUrlEntry 2 (.str "b"), Line.summary 1 1 0]
    false rfl rfl rfl rfl
  refine ⟨h.1 "f", h5.1 _ (List.mem_cons_self _ _), ?_⟩
  exact h5.2.1 (.str "u", [(1, .str "a"), (2, .str "b")])
    (List.mem_cons_self _ _)

/-- C6 (counterexample): a manifest that passes the structural checks but
whose first entry has a truthy unhashable `model_name` (a list) makes the run
raise `TypeError` during indexing: the second entry — which has three missing
required fields — is never examined and nothing is reported, so the tool does
not surface all problems and does not return failure, refuting the unrestricted
accumulation claim. -/
theorem C6_counterexample :
    validateDoc (mkDoc [.obj [("model_name", .arr [.num 1]), ("url", .str "u"),
      ("directory", .str "d")], .obj []]) =
      .error (.typeError "unhashable type") ∧
    entryIssues 1 (.obj []) ≠ [] :=
  ⟨rfl, by simp [entryIssues, requiredFields, hasKey]⟩
